import Mathlib

/-!
Verification development for the memory-bank-mcp coordination layer.

The repository wires a short-term/shared memory core (ring buffers, a
space/ACL/TTL registry, shared-session merge retrieval) behind an MCP tool
surface.  Pure helpers (`parseRole`, TTL/limit normalization, the session-id
persistence logic, `sharedFor`) are embedded directly from the entry-point
sources; the memory core itself lives in an external library and is modelled
from the specification where noted.
-/

namespace MemBank

/-! ### Go string helpers (strings.TrimSpace / strings.ToLower, ASCII range) -/

/-- ASCII whitespace recognized by Go's `strings.TrimSpace`. -/
def goIsSpace (c : Char) : Bool :=
  c = ' ' || c = '\t' || c = '\n' || c = '\x0b' || c = '\x0c' || c = '\r'

/-- ASCII case folding as done by Go's `strings.ToLower`. -/
def goLowerChar (c : Char) : Char :=
  if 'A' ≤ c ∧ c ≤ 'Z' then Char.ofNat (c.toNat + 32) else c

/-- Trim leading and trailing whitespace from a character list. -/
def goTrimChars (cs : List Char) : List Char :=
  ((cs.dropWhile goIsSpace).reverse.dropWhile goIsSpace).reverse

/-- `strings.TrimSpace` on strings. -/
def goTrimSpace (s : String) : String :=
  String.mk (goTrimChars s.toList)

/-- `strings.ToLower` on strings. -/
def goToLower (s : String) : String :=
  String.mk (s.toList.map goLowerChar)

/-- A string is blank when it is empty or whitespace-only. -/
def isBlank (s : String) : Bool :=
  goTrimChars s.toList = []

/-! ### Roles and role parsing (src/main.go `parseRole`) -/

/-- Space roles, ordered reader < writer < admin. -/
inductive SpaceRole
  | reader
  | writer
  | admin
deriving DecidableEq, Repr

/-- Normalized form of a role string: `strings.ToLower(strings.TrimSpace(s))`,
as a character list. -/
def normRole (s : String) : List Char :=
  (goTrimChars s.toList).map goLowerChar

/-- Embeds `parseRole` from src/main.go: trim and lowercase, then map
"admin" to admin, "writer" and "write" to writer, everything else to reader. -/
def parseRole (s : String) : SpaceRole :=
  let t := normRole s
  if t = "admin".toList then .admin
  else if t = "writer".toList then .writer
  else if t = "write".toList then .writer
  else .reader

/-! ### JSON number parameters (MCP `WithNumber` fields are float64) -/

/-- An optional JSON-number tool parameter, modelled as a rational.
`getNumberParam` (src/main.go) returns 0 when the key is absent. -/
def getNumber (p : Option ℚ) : ℚ := p.getD 0

/-- Go's `int(x)` conversion from float64: truncation toward zero.
On a normalized rational (`den > 0`) this is the truncated quotient. -/
def goTruncate (x : ℚ) : ℤ :=
  x.num.tdiv (x.den : ℤ)

/-- The integer a number parameter becomes in a handler:
`int(getNumberParam(req, key))`. -/
def goNumToInt (p : Option ℚ) : ℤ := goTruncate (getNumber p)

/-! ### Error taxonomy -/

/-- Decidable equality for `Except` results, used to evaluate handler
outcomes on concrete inputs. -/
instance {ε α : Type} [DecidableEq ε] [DecidableEq α] : DecidableEq (Except ε α) :=
  fun a b =>
    match a, b with
    | .error e, .error e' =>
        if h : e = e' then .isTrue (by rw [h]) else .isFalse (fun hh => by cases hh; exact h rfl)
    | .ok x, .ok y =>
        if h : x = y then .isTrue (by rw [h]) else .isFalse (fun hh => by cases hh; exact h rfl)
    | .error _, .ok _ => .isFalse (fun hh => by cases hh)
    | .ok _, .error _ => .isFalse (fun hh => by cases hh)

/-- The error taxonomy of the core. -/
inductive MemErr
  | validation (msg : String)
  | permission (msg : String)
  | notFound (msg : String)
  | upstream (msg : String)
deriving DecidableEq, Repr

/-! ### SpaceRegistry (grants with TTL) -/

/-- Association-list lookup, mirroring Go map indexing. -/
def alookup {κ β : Type} [DecidableEq κ] (k : κ) : List (κ × β) → Option β
  | [] => none
  | (k', v) :: rest => if k' = k then some v else alookup k rest

/-- Association-list update, mirroring Go map assignment: replaces the first
binding of the key, or appends a fresh binding. -/
def aupdate {κ β : Type} [DecidableEq κ] (k : κ) (v : β) : List (κ × β) → List (κ × β)
  | [] => [(k, v)]
  | (k', v') :: rest => if k' = k then (k, v) :: rest else (k', v') :: aupdate k v rest

/-- A grant of a role to a principal, with its own expiry (times in seconds). -/
structure SpaceGrant where
  role : SpaceRole
  grantedAt : ℤ
  expiresAt : ℤ
deriving DecidableEq, Repr

/-- A named space: default TTL plus per-principal grants. -/
structure Space where
  defaultTTL : ℤ
  grants : List (String × SpaceGrant)
deriving DecidableEq, Repr

/-- The space registry: name to space. -/
abbrev SpaceRegistry := List (String × Space)

/-- Modelled from the spec: `SpaceRegistry.Grant(name, principal, role, ttl)`
(the registry implementation lives in the external go-agent memory library).
Fails with `NotFoundError` when the space does not exist; otherwise
inserts/overwrites a single grant with `expiresAt = now + ttl`, independent of
the space's default TTL. -/
def registryGrant (reg : SpaceRegistry) (now : ℤ) (name principal : String)
    (role : SpaceRole) (ttl : ℤ) : Except MemErr SpaceRegistry :=
  match alookup name reg with
  | none => .error (.notFound ("space not found: " ++ name))
  | some sp =>
      let g : SpaceGrant := ⟨role, now, now + ttl⟩
      let sp' : Space := ⟨sp.defaultTTL, aupdate principal g sp.grants⟩
      .ok (aupdate name sp' reg)

/-- The effective TTL computed by the spaces.grant handler (src/main.go):
`ttl := int(getNumberParam(req, "ttl_seconds")); if ttl <= 0 { ttl = 3600 }`. -/
def effectiveGrantTTL (p : Option ℚ) : ℤ :=
  let t := goNumToInt p
  if t ≤ 0 then 3600 else t

/-- The spaces.grant handler (src/main.go): parses the role, normalizes the
TTL, and calls the registry's Grant. -/
def spacesGrantHandler (reg : SpaceRegistry) (now : ℤ) (name principal roleStr : String)
    (ttlParam : Option ℚ) : Except MemErr SpaceRegistry :=
  registryGrant reg now name principal (parseRole roleStr) (effectiveGrantTTL ttlParam)

/-! ### RingBuffer (fixed-capacity FIFO of messages) -/

/-- A message record (spec data model, section 3). -/
structure Message where
  timestamp : ℤ
  role : String
  content : String
  metadata : List (String × String)
deriving DecidableEq, Repr

/-- Modelled from the spec: RingBuffer — capacity fixed at construction,
holding at most `capacity` messages, oldest first (the ring-buffer
implementation lives in the external go-agent memory library). -/
structure RingBuffer (α : Type) where
  capacity : ℕ
  data : List α
deriving DecidableEq, Repr

namespace RingBuffer

/-- An empty buffer of the given capacity. -/
def empty (α : Type) (cap : ℕ) : RingBuffer α := ⟨cap, []⟩

/-- Modelled from the spec: `Append(message)` — adds the message; when the
buffer is full it overwrites the logically-oldest slot (FIFO eviction) and
never resizes. -/
def append (b : RingBuffer α) (m : α) : RingBuffer α :=
  if b.data.length < b.capacity then ⟨b.capacity, b.data ++ [m]⟩
  else ⟨b.capacity, b.data.tail ++ [m]⟩

/-- Append a whole sequence of messages in order. -/
def appendAll (b : RingBuffer α) (ms : List α) : RingBuffer α :=
  ms.foldl append b

/-- Modelled from the spec: `Recent(limit)` — up to `limit` messages, newest
first; when `limit ≤ 0` or `limit` exceeds the stored count, all stored
messages are returned. -/
def recent (b : RingBuffer α) (limit : ℤ) : List α :=
  if limit ≤ 0 ∨ (b.data.reverse.length : ℤ) < limit then b.data.reverse
  else b.data.reverse.take limit.toNat

end RingBuffer

/-! ### BufferRegistry (keyed short-term buffers) -/

/-- The buffer registry: one ring buffer per (session, space) key. -/
abbrev BufferRegistry := List ((String × String) × RingBuffer Message)

/-- Modelled from the spec: `BufferRegistry.Append(session, space, role,
content, metadata)` — fails with `ValidationError` when `session` or `space`
is empty/whitespace-only; otherwise looks up or lazily creates the keyed ring
buffer (at the configured capacity), appends the constructed message with the
server-assigned timestamp, and returns it. -/
def bufferAppend (cap : ℕ) (reg : BufferRegistry) (session space role content : String)
    (metadata : List (String × String)) (now : ℤ) :
    Except MemErr (BufferRegistry × Message) :=
  if isBlank session ∨ isBlank space then
    .error (.validation "session and space must be non-empty")
  else
    let msg : Message := ⟨now, role, content, metadata⟩
    let buf := (alookup (session, space) reg).getD (RingBuffer.empty Message cap)
    .ok (aupdate (session, space) (buf.append msg) reg, msg)

/-! ### Merge retrieval (SharedSession.Retrieve / RetrieveShared) -/

/-- A retrieval result record (spec data model): content, relevance score,
source space name or "private", and timestamp for tie-breaking. -/
structure MemoryRecord where
  content : String
  score : ℚ
  source : String
  ts : ℤ
deriving DecidableEq, Repr

/-- The outcome of querying one source (the private session or one joined,
authorized space): either its ranked records or an upstream failure message.
Embedding/similarity is the external engine's job, so a source is modelled by
its per-query outcome. -/
abbrev SourceResult := Except String (List MemoryRecord)

/-- Whether a source failed. -/
def sourceFailed : SourceResult → Bool
  | .error _ => true
  | .ok _ => false

/-- Records of a succeeded source (a failed source contributes nothing). -/
def sourceRecords : SourceResult → List MemoryRecord
  | .error _ => []
  | .ok rs => rs

/-- Ranking order on merged records: descending relevance score; ties broken
by private-session records before shared-space records, then by most-recent
timestamp. -/
def ranksBefore (a b : MemoryRecord) : Bool :=
  if b.score < a.score then true
  else if a.score < b.score then false
  else if a.source = "private" ∧ b.source ≠ "private" then true
  else if b.source = "private" ∧ a.source ≠ "private" then false
  else decide (b.ts < a.ts)

/-- Insert a record into an already-ranked list. -/
def insertRanked (r : MemoryRecord) : List MemoryRecord → List MemoryRecord
  | [] => [r]
  | x :: xs => if ranksBefore r x then r :: x :: xs else x :: insertRanked r xs

/-- Sort records by the ranking order (insertion sort). -/
def sortRanked : List MemoryRecord → List MemoryRecord
  | [] => []
  | x :: xs => insertRanked x (sortRanked xs)

/-- Modelled from the spec: the merge step of `SharedSession.Retrieve` — each
source is queried independently, individual failures are swallowed (that
source contributes zero results) unless every source fails, in which case the
call fails with an aggregated error; the surviving records are merged by rank
and truncated to `limit`. -/
def mergeRetrieve (srcs : List SourceResult) (limit : ℕ) :
    Except String (List MemoryRecord) :=
  if srcs ≠ [] ∧ srcs.all sourceFailed then
    .error "all retrieval sources failed"
  else
    .ok ((sortRanked (srcs.map sourceRecords).flatten).take limit)

/-- Modelled from the spec: `Retrieve(query, limit)` — merges the private
session's source with every currently-authorized joined space's source. -/
def retrieveMerged (priv : SourceResult) (shared : List SourceResult) (limit : ℕ) :
    Except String (List MemoryRecord) :=
  mergeRetrieve (priv :: shared) limit

/-- Modelled from the spec: `RetrieveShared(query, limit)` — identical to
`Retrieve` but the private session contributes no source at all; only
authorized joined spaces contribute. -/
def retrieveSharedOnly (shared : List SourceResult) (limit : ℕ) :
    Except String (List MemoryRecord) :=
  mergeRetrieve shared limit

/-- The effective limit computed by the shared.retrieve handler
(src/main.go): `limit := int(getNumberParam(req, "limit")); if limit <= 0
{ limit = 8 }`. -/
def effRetrieveLimit (p : Option ℚ) : ℤ :=
  let l := goNumToInt p
  if l ≤ 0 then 8 else l

/-- The shared.retrieve handler (src/main.go): normalizes the limit, lowers
the `only_shared` string parameter and compares it with "true", then
dispatches to `RetrieveShared` or `Retrieve` on the principal's view. -/
def sharedRetrieveHandler (priv : SourceResult) (shared : List SourceResult)
    (limitParam : Option ℚ) (onlyParam : Option String) :
    Except String (List MemoryRecord) :=
  let limit := (effRetrieveLimit limitParam).toNat
  let only := goToLower (onlyParam.getD "") = "true"
  if only then retrieveSharedOnly shared limit
  else retrieveMerged priv shared limit

/-! ### health.ping (src/main.go) -/

/-- A JSON value appearing in a tool result payload. -/
inductive JVal
  | jbool (b : Bool)
  | jstr (s : String)
deriving DecidableEq, Repr

/-- Embeds the health.ping handler's result object (src/main.go): exactly a
`pong` flag set to true and the server time string formatted as RFC3339. -/
def healthPingResult (now : String) : List (String × JVal) :=
  [("pong", .jbool true), ("time", .jstr now)]

/-! ### Session-id persistence (src/unnamed/part_000) -/

/-- A local filesystem, abstracted to its files (path to content) and the set
of directories that exist.  I/O faults other than file absence are outside
the model. -/
structure FileSystem where
  files : List (String × String)
  dirs : List String
deriving DecidableEq, Repr

/-- `getSessionDir`: the fixed per-user directory `~/.memory-bank-mcp`. -/
def getSessionDir (home : String) : String :=
  home ++ "/.memory-bank-mcp"

/-- The session-id file path inside the per-user directory. -/
def sessionFilePath (home : String) : String :=
  getSessionDir home ++ "/session_id"

/-- `ensureSessionDir`: creates the per-user directory if it does not exist
(os.MkdirAll) and returns it. -/
def ensureSessionDir (home : String) (fs : FileSystem) : FileSystem × String :=
  let dir := getSessionDir home
  (⟨fs.files, if dir ∈ fs.dirs then fs.dirs else dir :: fs.dirs⟩, dir)

/-- `saveSessionID`: ensures the per-user directory exists, then writes the
session id to the `session_id` file. -/
def saveSessionID (home : String) (fs : FileSystem) (sid : String) : FileSystem :=
  let (fs1, dir) := ensureSessionDir home fs
  ⟨aupdate (dir ++ "/session_id") sid fs1.files, fs1.dirs⟩

/-- `loadSessionID`: reads the session-id file; a missing file yields the
empty string with no error (no saved session), otherwise the file content is
returned with surrounding whitespace trimmed. -/
def loadSessionID (home : String) (fs : FileSystem) : Except String String :=
  match alookup (sessionFilePath home) fs.files with
  | none => .ok ""
  | some data => .ok (goTrimSpace data)

/-! ### Per-principal SharedSession registry (App.sharedFor) -/

/-- The principal-to-SharedSession map of the App, with object identity
modelled by allocation tokens: `nextId` is the next fresh token. -/
structure AppShared where
  shared : List (String × ℕ)
  nextId : ℕ
deriving DecidableEq, Repr

/-- Embeds `App.sharedFor` (src/main.go): under the lock, look the principal
up; when absent, construct a fresh `SharedSession` and store it; return the
stored session either way. -/
def sharedFor (st : AppShared) (p : String) : AppShared × ℕ :=
  match alookup p st.shared with
  | some id => (st, id)
  | none => (⟨st.shared ++ [(p, st.nextId)], st.nextId + 1⟩, st.nextId)

/-- The tool operations of the shared.* surface that touch the
principal-to-session registry; every one of them reaches the registry only
through `App.sharedFor` (src/main.go). -/
inductive SharedToolOp
  | join (principal space : String)
  | leave (principal space : String)
  | addShortTo (principal space content : String)
  | retrieve (principal query : String)
deriving DecidableEq, Repr

/-- The effect of a shared.* tool operation on the principal-to-session
registry, as wired in src/main.go: each handler calls `app.sharedFor(p)` and
nothing else touches the map. -/
def registryAfter : SharedToolOp → AppShared → AppShared
  | .join p _, st => (sharedFor st p).1
  | .leave p _, st => (sharedFor st p).1
  | .addShortTo p _ _, st => (sharedFor st p).1
  | .retrieve p _, st => (sharedFor st p).1

/-! ### Helper lemmas -/

theorem alookup_aupdate_self {κ β : Type} [DecidableEq κ] (k : κ) (v : β)
    (l : List (κ × β)) : alookup k (aupdate k v l) = some v := by
  induction l with
  | nil => simp [aupdate, alookup]
  | cons hd tl ih =>
      obtain ⟨k', v'⟩ := hd
      by_cases h : k' = k
      · simp [aupdate, alookup, h]
      · simp [aupdate, alookup, h, ih]

theorem alookup_append_of_some {κ β : Type} [DecidableEq κ] (q : κ) (w : β)
    (l l₂ : List (κ × β)) (h : alookup q l = some w) :
    alookup q (l ++ l₂) = some w := by
  induction l with
  | nil => simp [alookup] at h
  | cons hd tl ih =>
      obtain ⟨k', v'⟩ := hd
      by_cases hk : k' = q
      · simpa [alookup, hk] using h
      · simp only [alookup, hk, if_false, List.cons_append] at h ⊢
        exact ih h

theorem alookup_append_of_none {κ β : Type} [DecidableEq κ] (p : κ) (v : β)
    (l : List (κ × β)) (h : alookup p l = none) :
    alookup p (l ++ [(p, v)]) = some v := by
  induction l with
  | nil => simp [alookup]
  | cons hd tl ih =>
      obtain ⟨k', v'⟩ := hd
      by_cases hk : k' = p
      · simp [alookup, hk] at h
      · simp only [alookup, hk, if_false, List.cons_append] at h ⊢
        exact ih h

namespace RingBuffer

theorem append_capacity {α : Type} (b : RingBuffer α) (m : α) :
    (b.append m).capacity = b.capacity := by
  unfold append
  split <;> rfl

theorem appendAll_capacity {α : Type} (ms : List α) (b : RingBuffer α) :
    (b.appendAll ms).capacity = b.capacity := by
  induction ms generalizing b with
  | nil => rfl
  | cons x xs ih =>
      show ((b.append x).appendAll xs).capacity = b.capacity
      rw [ih (b.append x), append_capacity]

theorem append_data_concat {α : Type} (b : RingBuffer α) (m : α) :
    ∃ l : List α, (b.append m).data = l ++ [m] := by
  unfold append
  split
  · exact ⟨b.data, rfl⟩
  · exact ⟨b.data.tail, rfl⟩

theorem recent_one_append {α : Type} (b : RingBuffer α) (m : α) :
    (b.append m).recent 1 = [m] := by
  obtain ⟨l, hl⟩ := append_data_concat b m
  unfold recent
  rw [hl]
  rw [if_neg (by simp)]
  simp [List.reverse_append]

theorem appendAll_empty_data {α : Type} (C : ℕ) (hC : 1 ≤ C) (xs : List α) :
    ((RingBuffer.empty α C).appendAll xs).data = xs.drop (xs.length - C) := by
  induction xs using List.reverseRecOn with
  | nil => simp [appendAll, empty]
  | append_singleton ys x ih =>
      have hstep : (RingBuffer.empty α C).appendAll (ys ++ [x]) =
          ((RingBuffer.empty α C).appendAll ys).append x := by
        unfold appendAll
        rw [List.foldl_append]
        rfl
      have hcap : ((RingBuffer.empty α C).appendAll ys).capacity = C :=
        appendAll_capacity ys _
      set b := (RingBuffer.empty α C).appendAll ys with hb
      have hdlen : b.data.length = ys.length - (ys.length - C) := by
        rw [ih, List.length_drop]
      rw [hstep]
      unfold append
      rw [hcap, hdlen, ih]
      by_cases hlt : ys.length - (ys.length - C) < C
      · rw [if_pos hlt]
        have h1 : ys.length < C := by omega
        have h2 : ys.length - C = 0 := by omega
        have h3 : (ys ++ [x]).length - C = 0 := by simp; omega
        rw [h2, h3]
        simp
      · rw [if_neg hlt]
        have hge : C ≤ ys.length := by omega
        have h4 : (ys ++ [x]).length - C = (ys.length - C) + 1 := by simp; omega
        rw [h4]
        rw [← List.drop_one, List.drop_drop]
        rw [List.drop_append_of_le_length (by omega)]

end RingBuffer

/-- Records survive `insertRanked` exactly. -/
theorem mem_insertRanked (a r : MemoryRecord) (l : List MemoryRecord) :
    a ∈ insertRanked r l ↔ a = r ∨ a ∈ l := by
  induction l with
  | nil => simp [insertRanked]
  | cons x xs ih =>
      simp only [insertRanked]
      split
      · simp [List.mem_cons]
      · simp only [List.mem_cons, ih]
        tauto

/-- Sorting by rank preserves membership. -/
theorem mem_sortRanked (a : MemoryRecord) (l : List MemoryRecord) :
    a ∈ sortRanked l ↔ a ∈ l := by
  induction l with
  | nil => simp [sortRanked]
  | cons x xs ih => simp [sortRanked, mem_insertRanked, ih]

/-- Truncating a nonpositive rational toward zero is nonpositive. -/
theorem goTruncate_nonpos {q : ℚ} (h : q ≤ 0) : goTruncate q ≤ 0 := by
  unfold goTruncate
  have hnum : q.num ≤ 0 := Rat.num_nonpos.mpr h
  have hden : (0 : ℤ) ≤ (q.den : ℤ) := Int.natCast_nonneg _
  have h1 : (0 : ℤ) ≤ (-q.num).tdiv (q.den : ℤ) := Int.tdiv_nonneg (by omega) hden
  have h2 : (-q.num).tdiv (q.den : ℤ) = -(q.num.tdiv (q.den : ℤ)) := Int.neg_tdiv _ _
  omega

/-! ### Claim C1: ring-buffer eviction and Recent ordering -/

/-- Claim C1: for every ring buffer of capacity C ≥ 1 and every append
sequence of length n > C, Recent(C) after all appends returns exactly the C
most-recently appended messages, most-recent first; appends beyond capacity
evict the oldest message (the stored count stays at C) and never resize the
buffer (the capacity stays at C). -/
theorem ringBuffer_recent_after_overflow {α : Type} (C : ℕ) (xs : List α)
    (hC : 1 ≤ C) (hn : C < xs.length) :
    ((RingBuffer.empty α C).appendAll xs).recent (C : ℤ) = xs.reverse.take C ∧
    ((RingBuffer.empty α C).appendAll xs).capacity = C ∧
    ((RingBuffer.empty α C).appendAll xs).data.length = C := by
  have hdata := RingBuffer.appendAll_empty_data C hC xs
  have hcap := RingBuffer.appendAll_capacity xs (RingBuffer.empty α C)
  have hlen : ((RingBuffer.empty α C).appendAll xs).data.length = C := by
    rw [hdata, List.length_drop]
    omega
  refine ⟨?_, hcap, hlen⟩
  unfold RingBuffer.recent
  rw [if_neg]
  · have htn : ((C : ℤ)).toNat = C := by omega
    rw [htn, hdata, List.reverse_drop]
    have h5 : xs.length - (xs.length - C) = C := by omega
    rw [h5, List.take_take, min_self]
  · simp only [List.length_reverse, hlen]
    omega

/-- Witness for C1: capacity 2, four appends, Recent(2) is the last two
messages newest first and the buffer neither grew nor resized. -/
theorem ringBuffer_recent_after_overflow_witness :
    ((RingBuffer.empty ℕ 2).appendAll [10, 11, 12, 13]).recent ((2 : ℕ) : ℤ) =
        [10, 11, 12, 13].reverse.take 2 ∧
    ((RingBuffer.empty ℕ 2).appendAll [10, 11, 12, 13]).capacity = 2 ∧
    ((RingBuffer.empty ℕ 2).appendAll [10, 11, 12, 13]).data.length = 2 :=
  ringBuffer_recent_after_overflow 2 [10, 11, 12, 13] (by decide) (by decide)

/-! ### Claims C2 and C10: role parsing -/

/-- Claim C2 counterexample: the role string "write" lies outside the spec's
role set (reader/writer/admin), hence is unrecognized in the claim's sense,
yet `parseRole` maps it to the writer role, not the reader default. -/
theorem parseRole_unrecognized_cex :
    parseRole "write" = SpaceRole.writer ∧ SpaceRole.writer ≠ SpaceRole.reader ∧
    "write" ≠ "reader" ∧ "write" ≠ "writer" ∧ "write" ≠ "admin" := by
  decide

/-- Claim C2 (amended): role strings are normalized by trimming surrounding
whitespace and lowercasing (equal normal forms parse identically); every role
string whose normal form is not "admin", "writer", or "write" maps to the
reader role; no role string is ever rejected. -/
theorem parseRole_normalization :
    (∀ s t : String, normRole s = normRole t → parseRole s = parseRole t) ∧
    (∀ s : String, normRole s ≠ "admin".toList → normRole s ≠ "writer".toList →
      normRole s ≠ "write".toList → parseRole s = SpaceRole.reader) := by
  constructor
  · intro s t h
    simp only [parseRole]
    rw [h]
  · intro s h1 h2 h3
    simp only [parseRole]
    rw [if_neg h1, if_neg h2, if_neg h3]

/-- Witness for C2 (amended) at concrete role strings. -/
theorem parseRole_normalization_witness :
    parseRole " Admin" = parseRole "ADMIN" ∧ parseRole "boss" = SpaceRole.reader :=
  ⟨parseRole_normalization.1 " Admin" "ADMIN" (by decide),
   parseRole_normalization.2 "boss" (by decide) (by decide) (by decide)⟩

/-- Claim C10: every role string whose trimmed, lowercased form is "write" is
parsed as the writer role, although "write" is outside the documented role
set. -/
theorem parseRole_write_is_writer (s : String) (h : normRole s = "write".toList) :
    parseRole s = SpaceRole.writer := by
  simp only [parseRole]
  rw [h]
  decide

/-- Witness for C10 at a concrete mixed-case role string. -/
theorem parseRole_write_is_writer_witness : parseRole " WRITE " = SpaceRole.writer :=
  parseRole_write_is_writer " WRITE " (by decide)

/-! ### Claim C3: spaces.grant TTL normalization -/

/-- Claim C3 counterexample: ttl_seconds = 1/2 is positive, yet the handler
truncates the float64 toward zero before the positivity test, so the grant is
created with the 3600-second default; the resulting expiry (3600 s, with
now = 0) is not now + ttl_seconds (1/2 s). -/
theorem spacesGrant_fractional_ttl_cex :
    (0 : ℚ) < mkRat 1 2 ∧
    spacesGrantHandler [("team", ⟨86400, []⟩)] 0 "team" "bob" "reader" (some (mkRat 1 2)) =
      .ok [("team", ⟨86400, [("bob", ⟨SpaceRole.reader, 0, 3600⟩)]⟩)] ∧
    (3600 : ℚ) ≠ mkRat 1 2 := by
  refine ⟨by decide, by decide, by decide⟩

/-- Claim C3 (amended): for every spaces.grant request on an existing space,
ttl_seconds is truncated toward zero to an integer; when the parameter is
absent or the truncated value is ≤ 0 (zero, negative, and positive values
below one), the grant TTL is exactly 3600 seconds; otherwise the grant's
expiry is now + trunc(ttl_seconds); in both cases the expiry is independent
of the space's default TTL, which is left unchanged. -/
theorem spacesGrant_ttl_normalized (reg : SpaceRegistry) (now : ℤ)
    (name principal roleStr : String) (ttlParam : Option ℚ) (sp : Space)
    (h : alookup name reg = some sp) :
    ∃ reg', spacesGrantHandler reg now name principal roleStr ttlParam = .ok reg' ∧
      ∃ sp', alookup name reg' = some sp' ∧ sp'.defaultTTL = sp.defaultTTL ∧
        alookup principal sp'.grants =
          some ⟨parseRole roleStr, now,
            now + (if goNumToInt ttlParam ≤ 0 then 3600 else goNumToInt ttlParam)⟩ := by
  unfold spacesGrantHandler registryGrant
  rw [h]
  refine ⟨_, rfl, _, alookup_aupdate_self _ _ _, rfl, ?_⟩
  rw [alookup_aupdate_self]
  simp only [effectiveGrantTTL]

/-- Witness for C3 (amended) at a concrete registry and a positive integer
TTL. -/
theorem spacesGrant_ttl_normalized_witness :
    ∃ reg', spacesGrantHandler [("team", ⟨86400, []⟩)] 7 "team" "bob" "writer" (some 10) =
        .ok reg' ∧
      ∃ sp', alookup "team" reg' = some sp' ∧
        sp'.defaultTTL = (Space.mk 86400 []).defaultTTL ∧
        alookup "bob" sp'.grants =
          some ⟨parseRole "writer", 7,
            7 + (if goNumToInt (some 10) ≤ 0 then 3600 else goNumToInt (some 10))⟩ :=
  spacesGrant_ttl_normalized [("team", ⟨86400, []⟩)] 7 "team" "bob" "writer" (some 10)
    ⟨86400, []⟩ (by decide)

/-! ### Claim C4: shared.retrieve limit default and RetrieveShared -/

/-- Claim C4: the shared.retrieve handler falls back to limit 8 when the
limit parameter is absent or non-positive; with the only_shared flag set
(case-insensitively "true") it dispatches to RetrieveShared; and every record
in a RetrieveShared success comes from one of the joined, authorized shared
sources — the private session contributes no results. -/
theorem sharedRetrieve_limit_and_shared :
    (∀ p : Option ℚ, getNumber p ≤ 0 → effRetrieveLimit p = 8) ∧
    (∀ (priv : SourceResult) (shared : List SourceResult) (limitParam : Option ℚ)
        (onlyStr : String), goToLower onlyStr = "true" →
      sharedRetrieveHandler priv shared limitParam (some onlyStr) =
        retrieveSharedOnly shared (effRetrieveLimit limitParam).toNat) ∧
    (∀ (shared : List SourceResult) (limit : ℕ) (recs : List MemoryRecord),
      retrieveSharedOnly shared limit = .ok recs →
      ∀ r ∈ recs, ∃ src ∈ shared, ∃ rs, src = Except.ok rs ∧ r ∈ rs) := by
  refine ⟨?_, ?_, ?_⟩
  · intro p h
    unfold effRetrieveLimit goNumToInt
    rw [if_pos (goTruncate_nonpos h)]
  · intro priv shared limitParam onlyStr h
    unfold sharedRetrieveHandler
    rw [if_pos]
    show goToLower ((some onlyStr).getD "") = "true"
    simpa using h
  · intro shared limit recs hok r hr
    unfold retrieveSharedOnly mergeRetrieve at hok
    by_cases hc : shared ≠ [] ∧ shared.all sourceFailed = true
    · rw [if_pos hc] at hok
      cases hok
    · rw [if_neg hc] at hok
      have hrecs : recs = (sortRanked (shared.map sourceRecords).flatten).take limit := by
        injection hok with h'
        exact h'.symm
      rw [hrecs] at hr
      have h1 : r ∈ sortRanked (shared.map sourceRecords).flatten :=
        List.mem_of_mem_take hr
      have h2 : r ∈ (shared.map sourceRecords).flatten := (mem_sortRanked r _).mp h1
      rw [List.mem_flatten] at h2
      obtain ⟨rs', hrs', hr'⟩ := h2
      obtain ⟨src, hsrc, hmap⟩ := List.mem_map.mp hrs'
      cases src with
      | error e =>
          rw [← hmap] at hr'
          simp [sourceRecords] at hr'
      | ok rs =>
          rw [← hmap] at hr'
          exact ⟨.ok rs, hsrc, rs, rfl, hr'⟩

/-- Witness for C4: a negative limit falls back to 8, an uppercase "TRUE"
flag dispatches to RetrieveShared, and a one-source RetrieveShared output is
drawn from that shared source. -/
theorem sharedRetrieve_limit_and_shared_witness :
    effRetrieveLimit (some (mkRat (-3) 2)) = 8 ∧
    sharedRetrieveHandler (Except.ok []) [] none (some "TRUE") =
      retrieveSharedOnly [] (effRetrieveLimit none).toNat ∧
    ∃ src ∈ ([Except.ok [⟨"m", 1, "team", 0⟩]] : List SourceResult),
      ∃ rs, src = Except.ok rs ∧ (⟨"m", 1, "team", 0⟩ : MemoryRecord) ∈ rs :=
  ⟨sharedRetrieve_limit_and_shared.1 (some (mkRat (-3) 2)) (by decide),
   sharedRetrieve_limit_and_shared.2.1 (Except.ok []) [] none "TRUE" (by decide),
   sharedRetrieve_limit_and_shared.2.2 ([Except.ok [⟨"m", 1, "team", 0⟩]] : List SourceResult) 8
     [⟨"m", 1, "team", 0⟩] (by decide) ⟨"m", 1, "team", 0⟩ (by decide)⟩

/-! ### Claim C5: buffer append validation -/

/-- Claim C5: appending into a keyed buffer fails with a ValidationError
exactly when the session id or the space name is empty or whitespace-only;
otherwise it succeeds and the constructed message lands as the newest entry
of the keyed buffer. -/
theorem bufferAppend_validation (cap : ℕ) (reg : BufferRegistry)
    (session space role content : String) (meta : List (String × String)) (now : ℤ) :
    ((isBlank session ∨ isBlank space) →
      bufferAppend cap reg session space role content meta now =
        .error (.validation "session and space must be non-empty")) ∧
    (¬ isBlank session → ¬ isBlank space →
      ∃ reg', bufferAppend cap reg session space role content meta now =
          .ok (reg', ⟨now, role, content, meta⟩) ∧
        ∃ b, alookup (session, space) reg' = some b ∧
          b.recent 1 = [⟨now, role, content, meta⟩]) := by
  constructor
  · intro h
    unfold bufferAppend
    rw [if_pos h]
  · intro h1 h2
    have hcond : ¬ ((isBlank session : Prop) ∨ (isBlank space : Prop)) := by
      rintro (h | h)
      · exact h1 h
      · exact h2 h
    unfold bufferAppend
    rw [if_neg hcond]
    exact ⟨_, rfl, _, alookup_aupdate_self _ _ _, RingBuffer.recent_one_append _ _⟩

/-- Witness for C5: a whitespace-only session fails validation; a non-blank
key succeeds and the message is the newest buffer entry. -/
theorem bufferAppend_validation_witness :
    bufferAppend 20 [] "  " "team" "user" "hi" [] 5 =
      .error (.validation "session and space must be non-empty") ∧
    ∃ reg', bufferAppend 20 [] "s1" "team" "user" "hi" [] 5 =
        .ok (reg', ⟨5, "user", "hi", []⟩) ∧
      ∃ b, alookup ("s1", "team") reg' = some b ∧
        b.recent 1 = [⟨5, "user", "hi", []⟩] :=
  ⟨(bufferAppend_validation 20 [] "  " "team" "user" "hi" [] 5).1 (by decide),
   (bufferAppend_validation 20 [] "s1" "team" "user" "hi" [] 5).2 (by decide) (by decide)⟩

/-! ### Claim C7: health.ping result shape -/

/-- Claim C7 counterexample: at a concrete (non-UTC) server time the
health.ping result carries exactly the keys "pong" and "time" — no field of
it holds the server name "memory-bank-mcp" or the version "0.1.0", and there
is no engine-wired flag or backend-kind field. -/
theorem healthPing_missing_fields_cex :
    (healthPingResult "2026-10-11T12:00:00+02:00").map Prod.fst = ["pong", "time"] ∧
    ∀ kv ∈ healthPingResult "2026-10-11T12:00:00+02:00",
      kv.2 ≠ JVal.jstr "memory-bank-mcp" ∧ kv.2 ≠ JVal.jstr "0.1.0" := by
  decide

/-- Claim C7 (amended): the health operation takes no inputs and its result
contains exactly a pong flag set to true and the server time string (RFC3339,
local server clock); it carries no server name/version, engine-wired flag, or
backend store kind. -/
theorem healthPing_fields (now : String) :
    alookup "pong" (healthPingResult now) = some (JVal.jbool true) ∧
    alookup "time" (healthPingResult now) = some (JVal.jstr now) ∧
    (healthPingResult now).map Prod.fst = ["pong", "time"] := by
  refine ⟨?_, ?_, rfl⟩ <;> simp [healthPingResult, alookup]

/-! ### Claim C8: session-id persistence -/

/-- Claim C8: loading the persisted session id returns the file content with
surrounding whitespace trimmed; a missing session-id file loads as the empty
id with no error; saving creates the fixed per-user directory on demand and
writes the id there. -/
theorem sessionID_persistence :
    (∀ (home d : String) (fs : FileSystem),
      alookup (sessionFilePath home) fs.files = some d →
      loadSessionID home fs = .ok (goTrimSpace d)) ∧
    (∀ (home : String) (fs : FileSystem),
      alookup (sessionFilePath home) fs.files = none →
      loadSessionID home fs = .ok "") ∧
    (∀ (home : String) (fs : FileSystem) (sid : String),
      getSessionDir home ∈ (saveSessionID home fs sid).dirs ∧
      alookup (sessionFilePath home) (saveSessionID home fs sid).files = some sid) := by
  refine ⟨?_, ?_, ?_⟩
  · intro home d fs h
    unfold loadSessionID
    rw [h]
  · intro home fs h
    unfold loadSessionID
    rw [h]
  · intro home fs sid
    constructor
    · unfold saveSessionID ensureSessionDir
      by_cases h : getSessionDir home ∈ fs.dirs
      · simp [h]
      · simp [h]
    · unfold saveSessionID ensureSessionDir
      exact alookup_aupdate_self _ _ _

/-- Witness for C8: a present file loads trimmed, an absent file loads as the
empty session id. -/
theorem sessionID_persistence_witness :
    loadSessionID "/home/u" ⟨[("/home/u/.memory-bank-mcp/session_id", " sess-1 ")], []⟩ =
      .ok (goTrimSpace " sess-1 ") ∧
    loadSessionID "/home/u" ⟨[], []⟩ = .ok "" :=
  ⟨sessionID_persistence.1 "/home/u" " sess-1 "
      ⟨[("/home/u/.memory-bank-mcp/session_id", " sess-1 ")], []⟩ (by decide),
   sessionID_persistence.2.1 "/home/u" ⟨[], []⟩ (by decide)⟩

/-! ### Claim C9: SharedSession registry lifecycle -/

/-- Claim C9: a principal's SharedSession is created lazily by the first
sharedFor reference, every later sharedFor call for the same principal
returns the very same session token with the registry unchanged, and no
operation of the shared.* tool surface removes (or remaps) an existing
principal's session. -/
theorem sharedFor_registry_lifecycle :
    (∀ (st : AppShared) (p : String),
      alookup p ((sharedFor st p).1).shared = some (sharedFor st p).2) ∧
    (∀ (st : AppShared) (p : String),
      sharedFor ((sharedFor st p).1) p = ((sharedFor st p).1, (sharedFor st p).2)) ∧
    (∀ (op : SharedToolOp) (st : AppShared) (q : String) (n : ℕ),
      alookup q st.shared = some n →
      alookup q (registryAfter op st).shared = some n) := by
  have hself : ∀ (st : AppShared) (p : String),
      alookup p ((sharedFor st p).1).shared = some (sharedFor st p).2 := by
    intro st p
    rcases h : alookup p st.shared with _ | n
    · simp only [sharedFor, h]
      exact alookup_append_of_none p st.nextId st.shared h
    · simp only [sharedFor, h]
  have hmono : ∀ (st : AppShared) (p q : String) (n : ℕ),
      alookup q st.shared = some n →
      alookup q ((sharedFor st p).1).shared = some n := by
    intro st p q n hq
    rcases h : alookup p st.shared with _ | m
    · simp only [sharedFor, h]
      exact alookup_append_of_some q n st.shared _ hq
    · simp only [sharedFor, h]
      exact hq
  refine ⟨hself, ?_, ?_⟩
  · intro st p
    have hit : ∀ (st' : AppShared) (n : ℕ), alookup p st'.shared = some n →
        sharedFor st' p = (st', n) := by
      intro st' n h
      simp only [sharedFor, h]
    exact hit _ _ (hself st p)
  · intro op st q n hq
    cases op with
    | join p s => exact hmono st p q n hq
    | leave p s => exact hmono st p q n hq
    | addShortTo p s c => exact hmono st p q n hq
    | retrieve p s => exact hmono st p q n hq

/-- Witness for C9: a fresh principal is present after its first reference,
and a shared.leave for another principal leaves an existing binding intact. -/
theorem sharedFor_registry_lifecycle_witness :
    alookup "alice" ((sharedFor ⟨[], 0⟩ "alice").1).shared =
      some (sharedFor ⟨[], 0⟩ "alice").2 ∧
    alookup "bob" (registryAfter (.leave "alice" "team") ⟨[("bob", 3)], 4⟩).shared =
      some 3 :=
  ⟨sharedFor_registry_lifecycle.1 ⟨[], 0⟩ "alice",
   sharedFor_registry_lifecycle.2.2 (.leave "alice" "team") ⟨[("bob", 3)], 4⟩ "bob" 3
     (by decide)⟩

end MemBank

